import Mathlib

/-!
Verification of the gameplay-simulation core of a bevy-based 2D action game
(single source file `src/main.rs`).  The embedding models the countdown
timers (bevy 0.7 `Timer` semantics), the difficulty/spawn scheduler, the
per-enemy behavior state machine, the weapon pickup lifecycle, the bullet
collision reaction, and the player movement/dash controller.  `f32`
quantities are embedded as rationals (the claims only involve exact decimal
constants); the trigonometry of `handle_shooter` is embedded over the reals.

Bevy/heron conventions reflected in the model:
- `Commands` effects (spawn/despawn/insert/remove of components) are
  deferred to the end of the stage, so every system in a tick sees the
  component state from the start of the tick; direct `ResMut`/`Mut`
  mutations (score, timers, transforms) are immediate and sequential.
- A repeating `Timer` reports `finished` exactly on the tick it wraps; a
  non-repeating timer caps `elapsed` at `duration` and stays finished.
-/

namespace GameJam

/-- Bevy 0.7 `Timer`: countdown with `duration`, `elapsed`, `repeating`
flag, and a stored `finished` flag that is recomputed on `tick`. -/
structure Timer where
  duration : ℚ
  elapsed : ℚ
  repeating : Bool
  finished : Bool
deriving DecidableEq

/-- `Timer::from_seconds(d, repeating)`. -/
def Timer.fromSeconds (d : ℚ) (rep : Bool) : Timer :=
  { duration := d, elapsed := 0, repeating := rep, finished := false }

/-- `Timer::tick(delta)`: advance `elapsed`; a non-repeating timer caps
`elapsed` at `duration`, a repeating timer wraps it modulo `duration`. -/
def Timer.tick (t : Timer) (dt : ℚ) : Timer :=
  let e := t.elapsed + dt
  if t.duration ≤ e then
    if t.repeating then
      { t with elapsed := e - t.duration * ((⌊e / t.duration⌋ : ℤ) : ℚ), finished := true }
    else
      { t with elapsed := t.duration, finished := true }
  else
    { t with elapsed := e, finished := false }

/-- `Timer::reset()`: rewind the stopwatch and clear the finished flag. -/
def Timer.reset (t : Timer) : Timer :=
  { t with elapsed := 0, finished := false }

/-- `Timer::set_elapsed` (used by the dash commit): sets only the
stopwatch; the stored `finished` flag is untouched until the next tick. -/
def Timer.setElapsed (t : Timer) (e : ℚ) : Timer :=
  { t with elapsed := e }

/-! ## Spawn and difficulty scheduler (`handle_difficulty`, `tick_timers`) -/

/-- Shared mutable scheduler state: `DifficultyTimer.difficulty`, the
`EnemyTimer` interval duration and the `DifficultyTimer` interval
duration. -/
structure DiffState where
  difficulty : ℤ
  enemyDur : ℚ
  diffDur : ℚ
deriving DecidableEq

/-- The duration update applied in `handle_difficulty`:
`if old - 0.1 > 0.1 { old - 0.1 } else { 0.1 }`. -/
def clampShrink (d : ℚ) : ℚ :=
  if 0.1 < d - 0.1 then d - 0.1 else 0.1

/-- `handle_difficulty`: shrink the enemy-wave interval, increment the
difficulty, and once the (incremented) difficulty reaches 25 also shrink
the difficulty timer's own duration. -/
def handle_difficulty (s : DiffState) : DiffState :=
  let s1 : DiffState := { s with enemyDur := clampShrink s.enemyDur }
  let s2 : DiffState := { s1 with difficulty := s1.difficulty + 1 }
  if 25 ≤ s2.difficulty then { s2 with diffDur := clampShrink s2.diffDur } else s2

theorem clampShrink_eq_max (d : ℚ) : clampShrink d = max 0.1 (d - 0.1) := by
  unfold clampShrink
  rcases lt_or_le (0.1 : ℚ) (d - 0.1) with h | h
  · rw [if_pos h, max_eq_right h.le]
  · rw [if_neg (not_lt.mpr h), max_eq_left h]

/-- C5: each `DifficultyTimer` firing increments the difficulty by exactly
one; the enemy-wave interval becomes `max 0.1 (interval - 0.1)`, hence
never increases (and stays at or above the 0.1 floor) whenever it was at
or above the floor; once the incremented difficulty reaches 25 the
difficulty timer's own duration shrinks by the same clamped rule,
otherwise it is unchanged. -/
theorem difficulty_ramp (s : DiffState) (h : (0.1 : ℚ) ≤ s.enemyDur) :
    (handle_difficulty s).difficulty = s.difficulty + 1
    ∧ (handle_difficulty s).enemyDur = max 0.1 (s.enemyDur - 0.1)
    ∧ (handle_difficulty s).enemyDur ≤ s.enemyDur
    ∧ (0.1 : ℚ) ≤ (handle_difficulty s).enemyDur
    ∧ (25 ≤ s.difficulty + 1 →
        (handle_difficulty s).diffDur = max 0.1 (s.diffDur - 0.1))
    ∧ (s.difficulty + 1 < 25 → (handle_difficulty s).diffDur = s.diffDur)
    ∧ (25 ≤ s.difficulty + 1 → (0.1 : ℚ) ≤ s.diffDur →
        (handle_difficulty s).diffDur ≤ s.diffDur) := by
  have hdiff : (handle_difficulty s).difficulty = s.difficulty + 1 := by
    simp only [handle_difficulty]
    split <;> rfl
  have henemy : (handle_difficulty s).enemyDur = max 0.1 (s.enemyDur - 0.1) := by
    simp only [handle_difficulty]
    split <;> simp [clampShrink_eq_max]
  refine ⟨hdiff, henemy, ?_, ?_, ?_, ?_, ?_⟩
  · rw [henemy]
    exact max_le (by linarith) (by linarith)
  · rw [henemy]; exact le_max_left _ _
  · intro h25
    simp only [handle_difficulty]
    rw [if_pos (by simpa using h25)]
    simp [clampShrink_eq_max]
  · intro h25
    simp only [handle_difficulty]
    rw [if_neg (by simpa using not_le.mpr h25)]
  · intro h25 hfloor
    simp only [handle_difficulty]
    rw [if_pos (by simpa using h25)]
    simp only [clampShrink_eq_max]
    exact max_le (by linarith) (by linarith)

theorem difficulty_ramp_witness :
    (0.1 : ℚ) ≤ (2 : ℚ)
    ∧ ((handle_difficulty ⟨24, 2, 5⟩).difficulty = 24 + 1
      ∧ (handle_difficulty ⟨24, 2, 5⟩).enemyDur = max 0.1 ((2 : ℚ) - 0.1)
      ∧ (handle_difficulty ⟨24, 2, 5⟩).enemyDur ≤ (2 : ℚ)
      ∧ (0.1 : ℚ) ≤ (handle_difficulty ⟨24, 2, 5⟩).enemyDur
      ∧ (25 ≤ (24 : ℤ) + 1 →
          (handle_difficulty ⟨24, 2, 5⟩).diffDur = max 0.1 ((5 : ℚ) - 0.1))
      ∧ ((24 : ℤ) + 1 < 25 → (handle_difficulty ⟨24, 2, 5⟩).diffDur = 5)
      ∧ (25 ≤ (24 : ℤ) + 1 → (0.1 : ℚ) ≤ (5 : ℚ) →
          (handle_difficulty ⟨24, 2, 5⟩).diffDur ≤ (5 : ℚ))) :=
  ⟨by norm_num, difficulty_ramp ⟨24, 2, 5⟩ (by norm_num)⟩

/-! ## Enemy behavior state machine (`move_enemies` and the handlers) -/

/-- Enemy behavior variants (`enum Behavior`). -/
inductive Behavior
  | Walker
  | Jumper
  | Shooter
  | BurstShooter
deriving DecidableEq

/-- The transient active-behavior components `Jump`, `Slide`, `Shooter`,
`BurstShot`, each carrying its phase timer.  An enemy's attached set of
these components is modelled as a list, so that the exclusivity invariant
is a genuine property rather than true by construction. -/
inductive ActiveComp
  | Jump (timer : Timer)
  | Slide (timer : Timer)
  | Shooter (timer : Timer)
  | BurstShot (timer : Timer)
deriving DecidableEq

/-- Random draws consumed by `handle_jumpers` on a jump exit:
`x_vel = gen_range(20.0..100.0)`, `y_vel = gen_range(200.0..500.0)`,
`dir = gen_range(-1.0..1.0)`. -/
structure JumpDraws where
  xvel : ℚ
  yvel : ℚ
  dir : ℚ
deriving DecidableEq

/-- `math::round::floor(x, -1)`: round down to a multiple of ten (the
`direction` factor computed in `handle_jumpers`). -/
def floorTens (x : ℚ) : ℚ :=
  ((⌊x / 10⌋ : ℤ) : ℚ) * 10

/-- Enemy component state: the `Enemy` component fields plus the pieces of
`Transform`/`Velocity` that the behavior handlers write. -/
structure Enemy where
  asset : Behavior
  health : ℤ
  direction : ℚ
  delay_move : Timer
  active : List ActiveComp
  posX : ℚ
  velX : ℚ
  velY : ℚ
  scaleX : ℚ
  scaleY : ℚ
deriving DecidableEq

/-- The component `move_enemies` attaches for each behavior variant, with
its type-specific one-shot timer. -/
def attachFor : Behavior → ActiveComp
  | Behavior.Walker => ActiveComp.Slide (Timer.fromSeconds 0.5 false)
  | Behavior.BurstShooter => ActiveComp.BurstShot (Timer.fromSeconds 1.4 false)
  | Behavior.Jumper => ActiveComp.Jump (Timer.fromSeconds 2.5 false)
  | Behavior.Shooter => ActiveComp.Shooter (Timer.fromSeconds 1.0 false)

/-- `move_enemies` as it acts on one enemy: the query filters
`Without<Jump>, Without<Slide>, Without<Shooter>, Without<BurstShot>`, so
only an enemy holding no active-behavior component ticks `delay_move`,
and when the repeating timer fires the matching component is attached. -/
def move_enemies_step (dt : ℚ) (e : Enemy) : Enemy :=
  if e.active = [] then
    let d := e.delay_move.tick dt
    if d.finished then
      { e with delay_move := d, active := [attachFor e.asset] }
    else
      { e with delay_move := d }
  else e

/-- One behavior handler pass over a single attached component, returning
the updated enemy fields and the component if it is kept:
`handle_slides`, `handle_jumpers`, `handle_shooter` (shot spawning is
modelled separately), and no system at all for `BurstShot`. -/
def handleComp (dt : ℚ) (dr : JumpDraws) (e : Enemy) :
    ActiveComp → Enemy × Option ActiveComp
  | ActiveComp.Slide t =>
      let t' := t.tick dt
      if t'.finished then
        ({ e with scaleX := 1 }, none)
      else
        ({ e with posX := e.posX + 20 * dt * e.direction,
                  scaleX := e.scaleX + 0.5 * dt }, some (ActiveComp.Slide t'))
  | ActiveComp.Jump t =>
      let t' := t.tick dt
      if t'.finished then
        ({ e with scaleY := 1, delay_move := e.delay_move.reset,
                  velY := dr.yvel, velX := dr.xvel * floorTens dr.dir }, none)
      else
        ({ e with scaleY := e.scaleY - 0.3 * dt }, some (ActiveComp.Jump t'))
  | ActiveComp.Shooter t =>
      let t' := t.tick dt
      if t'.finished then (e, none) else (e, some (ActiveComp.Shooter t'))
  | ActiveComp.BurstShot t => (e, some (ActiveComp.BurstShot t))

/-- Run the behavior handlers over a list of attached components,
threading the enemy fields and collecting the kept components. -/
def runHandlers (dt : ℚ) (dr : JumpDraws) :
    Enemy → List ActiveComp → Enemy × List ActiveComp
  | e, [] => (e, [])
  | e, c :: cs =>
      let p := handleComp dt dr e c
      let q := runHandlers dt dr p.1 cs
      (q.1, p.2.toList ++ q.2)

/-- The combined effect of the behavior-handler systems on one enemy. -/
def handleActives (dt : ℚ) (dr : JumpDraws) (e : Enemy) : Enemy :=
  let p := runHandlers dt dr e e.active
  { p.1 with active := p.2 }

/-- One simulation tick for one enemy.  Commands are deferred, so both
`move_enemies` and the handlers see the start-of-tick component state: an
enemy with no active component is only touched by `move_enemies`, an
enemy with an active component only by the matching handler. -/
def enemyTick (dt : ℚ) (dr : JumpDraws) (e : Enemy) : Enemy :=
  if e.active = [] then move_enemies_step dt e else handleActives dt dr e

theorem runHandlers_length_le (dt : ℚ) (dr : JumpDraws) :
    ∀ (cs : List ActiveComp) (e : Enemy),
      (runHandlers dt dr e cs).2.length ≤ cs.length := by
  intro cs
  induction cs with
  | nil => intro e; simp [runHandlers]
  | cons c cs ih =>
      intro e
      simp only [runHandlers, List.length_append, List.length_cons]
      have h1 : (handleComp dt dr e c).2.toList.length ≤ 1 := by
        cases (handleComp dt dr e c).2 <;> simp
      have h2 := ih (handleComp dt dr e c).1
      omega

theorem enemyTick_active_le (dt : ℚ) (dr : JumpDraws) (e : Enemy)
    (h : e.active.length ≤ 1) : (enemyTick dt dr e).active.length ≤ 1 := by
  unfold enemyTick
  by_cases he : e.active = []
  · rw [if_pos he]
    unfold move_enemies_step
    rw [if_pos he]
    dsimp only
    split <;> simp [he]
  · rw [if_neg he]
    unfold handleActives
    dsimp only
    exact le_trans (runHandlers_length_le dt dr e.active e) h

/-- C1: along any sequence of ticks from a freshly spawned enemy (no
active-behavior component), at most one active-behavior component is ever
attached; whenever `delay_move` fires on an enemy holding no
active-behavior component, exactly the component matching its behavior
variant is attached (Walker -> Slide 0.5s, Jumper -> Jump 2.5s,
Shooter -> Shooter 1.0s, BurstShooter -> BurstShot 1.4s), and
`move_enemies` leaves any enemy holding an active component untouched. -/
theorem enemy_state_machine (e0 : Enemy) (h0 : e0.active = [])
    (ticks : List (ℚ × JumpDraws)) :
    (ticks.foldl (fun e td => enemyTick td.1 td.2 e) e0).active.length ≤ 1
    ∧ (∀ (e : Enemy) (dt : ℚ) (dr : JumpDraws), e.active = [] →
        (enemyTick dt dr e).active =
          (if (e.delay_move.tick dt).finished = true then [attachFor e.asset] else []))
    ∧ attachFor Behavior.Walker = ActiveComp.Slide (Timer.fromSeconds 0.5 false)
    ∧ attachFor Behavior.Jumper = ActiveComp.Jump (Timer.fromSeconds 2.5 false)
    ∧ attachFor Behavior.Shooter = ActiveComp.Shooter (Timer.fromSeconds 1.0 false)
    ∧ attachFor Behavior.BurstShooter = ActiveComp.BurstShot (Timer.fromSeconds 1.4 false)
    ∧ (∀ (e : Enemy) (dt : ℚ), e.active ≠ [] → move_enemies_step dt e = e) := by
  refine ⟨?_, ?_, rfl, rfl, rfl, rfl, ?_⟩
  · have key : ∀ (ts : List (ℚ × JumpDraws)) (e : Enemy), e.active.length ≤ 1 →
        (ts.foldl (fun e td => enemyTick td.1 td.2 e) e).active.length ≤ 1 := by
      intro ts
      induction ts with
      | nil => intro e he; simpa using he
      | cons td ts ih =>
          intro e he
          exact ih _ (enemyTick_active_le td.1 td.2 e he)
    exact key ticks e0 (by simp [h0])
  · intro e dt dr he
    unfold enemyTick move_enemies_step
    rw [if_pos he, if_pos he]
    dsimp only
    split <;> simp_all
  · intro e dt he
    unfold move_enemies_step
    rw [if_neg he]

theorem enemy_state_machine_witness :
    ([] : List ActiveComp) = []
    ∧ ((([((1 : ℚ), (⟨50, 300, 0⟩ : JumpDraws))].foldl
          (fun e td => enemyTick td.1 td.2 e)
          (⟨Behavior.Walker, 1, 1, Timer.fromSeconds 1 true, [], 0, 0, 0, 1, 1⟩ : Enemy)).active.length ≤ 1)
      ∧ (∀ (e : Enemy) (dt : ℚ) (dr : JumpDraws), e.active = [] →
          (enemyTick dt dr e).active =
            (if (e.delay_move.tick dt).finished = true then [attachFor e.asset] else []))
      ∧ attachFor Behavior.Walker = ActiveComp.Slide (Timer.fromSeconds 0.5 false)
      ∧ attachFor Behavior.Jumper = ActiveComp.Jump (Timer.fromSeconds 2.5 false)
      ∧ attachFor Behavior.Shooter = ActiveComp.Shooter (Timer.fromSeconds 1.0 false)
      ∧ attachFor Behavior.BurstShooter = ActiveComp.BurstShot (Timer.fromSeconds 1.4 false)
      ∧ (∀ (e : Enemy) (dt : ℚ), e.active ≠ [] → move_enemies_step dt e = e)) :=
  ⟨rfl, enemy_state_machine
    (⟨Behavior.Walker, 1, 1, Timer.fromSeconds 1 true, [], 0, 0, 0, 1, 1⟩ : Enemy) rfl
    [((1 : ℚ), (⟨50, 300, 0⟩ : JumpDraws))]⟩

theorem floorTens_unit (r : ℚ) (h1 : -1 ≤ r) (h2 : r < 1) :
    floorTens r = if r < 0 then (-10 : ℚ) else 0 := by
  unfold floorTens
  by_cases hr : r < 0
  · have hfl : ⌊r / 10⌋ = -1 := by
      rw [Int.floor_eq_iff]
      constructor
      · push_cast
        linarith
      · push_cast
        linarith
    rw [if_pos hr, hfl]
    norm_num
  · have hr' : 0 ≤ r := not_lt.mp hr
    have hfl : ⌊r / 10⌋ = 0 := by
      rw [Int.floor_eq_iff]
      constructor
      · push_cast
        linarith
      · push_cast
        linarith
    rw [if_neg hr, hfl]
    norm_num

/-- C8 (amended): when a `Jump` timer finishes, the exit impulse is
`y-velocity = random(200,500)` but
`x-velocity = random(20,100) * round::floor(random(-1,1), -1)`, and the
floor-to-tens factor on a draw in `[-1,1)` is `0` (draw nonnegative) or
`-10` (draw negative), never a sign of `+1` or `-1`; `delay_move` is reset
immediately, the squash scale returns to 1 and the `Jump` component is
removed. -/
theorem jumper_exit (e : Enemy) (t : Timer) (dr : JumpDraws) (dt : ℚ)
    (ha : e.active = [ActiveComp.Jump t])
    (hfin : (t.tick dt).finished = true)
    (hr1 : -1 ≤ dr.dir) (hr2 : dr.dir < 1) :
    (enemyTick dt dr e).velX = dr.xvel * (if dr.dir < 0 then (-10 : ℚ) else 0)
    ∧ (enemyTick dt dr e).velY = dr.yvel
    ∧ (enemyTick dt dr e).delay_move = e.delay_move.reset
    ∧ (enemyTick dt dr e).active = []
    ∧ (enemyTick dt dr e).scaleY = 1 := by
  have hx : floorTens dr.dir = if dr.dir < 0 then (-10 : ℚ) else 0 :=
    floorTens_unit dr.dir hr1 hr2
  unfold enemyTick
  rw [if_neg (by simp [ha])]
  unfold handleActives
  rw [ha]
  simp [runHandlers, handleComp, hfin, hx]

/-- Concrete jumper one tick before its `Jump` timer (2.5s) finishes. -/
def jumperCEEnemy : Enemy :=
  ⟨Behavior.Jumper, 1, 1, Timer.fromSeconds 2 true,
    [ActiveComp.Jump ⟨2.5, 2.4, false, false⟩], 0, 0, 0, 1, 1⟩

theorem jumper_impulse_counterexample :
    (enemyTick 0.1 ⟨50, 300, 0.5⟩ jumperCEEnemy).velX = 0
    ∧ ¬ (20 ≤ abs (enemyTick 0.1 ⟨50, 300, 0.5⟩ jumperCEEnemy).velX) := by
  have hv : (enemyTick 0.1 ⟨50, 300, 0.5⟩ jumperCEEnemy).velX = 0 := by
    norm_num [enemyTick, handleActives, runHandlers, handleComp, Timer.tick,
      Timer.reset, jumperCEEnemy, floorTens]
  rw [hv]
  norm_num

theorem jumper_exit_witness :
    jumperCEEnemy.active = [ActiveComp.Jump ⟨2.5, 2.4, false, false⟩]
    ∧ ((⟨2.5, 2.4, false, false⟩ : Timer).tick 0.1).finished = true
    ∧ (-1 : ℚ) ≤ -0.5 ∧ (-0.5 : ℚ) < 1
    ∧ ((enemyTick 0.1 ⟨50, 300, -0.5⟩ jumperCEEnemy).velX =
          50 * (if (-0.5 : ℚ) < 0 then (-10 : ℚ) else 0)
      ∧ (enemyTick 0.1 ⟨50, 300, -0.5⟩ jumperCEEnemy).velY = 300
      ∧ (enemyTick 0.1 ⟨50, 300, -0.5⟩ jumperCEEnemy).delay_move =
          jumperCEEnemy.delay_move.reset
      ∧ (enemyTick 0.1 ⟨50, 300, -0.5⟩ jumperCEEnemy).active = []
      ∧ (enemyTick 0.1 ⟨50, 300, -0.5⟩ jumperCEEnemy).scaleY = 1) :=
  ⟨rfl, by norm_num [Timer.tick], by norm_num, by norm_num,
    jumper_exit jumperCEEnemy ⟨2.5, 2.4, false, false⟩ ⟨50, 300, -0.5⟩ 0.1
      rfl (by norm_num [Timer.tick]) (by norm_num) (by norm_num)⟩

/-! ## Bullet collision reaction and lifetime (`handle_bullet_collision`,
`tick_timers`) -/

theorem Timer.tick_finished_iff (t : Timer) (dt : ℚ) :
    ((t.tick dt).finished = true) ↔ t.duration ≤ t.elapsed + dt := by
  unfold Timer.tick
  dsimp only
  split
  · split <;> simp_all
  · simp_all

/-- A physics-enabled entity tagged `Bullet`, with its current per-tick
collision partner list (from heron's `Collisions`). -/
structure BulletEnt where
  id : ℕ
  collisions : List ℕ
  timer : Timer
deriving DecidableEq

/-- `handle_bullet_collision`: for every entity with a `Bullet` tag, every
entity in its `Collisions` list is despawned.  The despawn requests of the
tick are exactly the collision partners. -/
def handle_bullet_collision (bullets : List BulletEnt) : List ℕ :=
  bullets.flatMap (fun b => b.collisions)

/-- All bullet-related despawn requests of one tick: the collision
partners from `handle_bullet_collision` plus, from `tick_timers`, every
bullet whose lifetime timer finishes this tick. -/
def bullet_tick_despawns (bullets : List BulletEnt) (dt : ℚ) : List ℕ :=
  handle_bullet_collision bullets
    ++ (bullets.filter (fun b => (b.timer.tick dt).finished)).map (fun b => b.id)

/-- A bullet with a 5.0s lifetime, elapsed 1.1s, colliding with entity 2
on the tick reaching t = 1.2s. -/
def bulletCE : BulletEnt := ⟨1, [2], ⟨5, 1.1, false, false⟩⟩

theorem bullet_collision_counterexample :
    bulletCE.timer.elapsed + 0.1 = 1.2
    ∧ (2 : ℕ) ∈ bullet_tick_despawns [bulletCE] 0.1
    ∧ (1 : ℕ) ∉ bullet_tick_despawns [bulletCE] 0.1 := by
  refine ⟨by norm_num [bulletCE], ?_, ?_⟩
  · simp [bullet_tick_despawns, handle_bullet_collision, bulletCE]
  · have hnf : ((bulletCE.timer.tick 0.1)).finished = false := by
      norm_num [bulletCE, Timer.tick]
    simp [bullet_tick_despawns, handle_bullet_collision, bulletCE, Timer.tick]
    norm_num

/-- C2 (amended): a bullet with an active collision partner despawns the
partner, not itself: every collision partner of every bullet is in the
tick's despawn set, while the bullet itself (provided no tracked bullet
lists it as a partner and its id is unambiguous) is despawned only by its
lifetime timer, i.e. exactly when `elapsed + dt` reaches `duration`. -/
theorem bullet_collision_despawns_partner (bullets : List BulletEnt)
    (b : BulletEnt) (hb : b ∈ bullets) (p : ℕ) (hp : p ∈ b.collisions)
    (dt : ℚ)
    (hself : ∀ q ∈ bullets, b.id ∉ q.collisions)
    (hids : ∀ q ∈ bullets, q.id = b.id → q = b)
    (hnf : (b.timer.tick dt).finished = false) :
    p ∈ bullet_tick_despawns bullets dt
    ∧ b.id ∉ bullet_tick_despawns bullets dt
    ∧ (((b.timer.tick dt).finished = true) ↔
        b.timer.duration ≤ b.timer.elapsed + dt) := by
  refine ⟨?_, ?_, Timer.tick_finished_iff b.timer dt⟩
  · unfold bullet_tick_despawns handle_bullet_collision
    exact List.mem_append_left _ (List.mem_flatMap.mpr ⟨b, hb, hp⟩)
  · unfold bullet_tick_despawns handle_bullet_collision
    intro hmem
    rcases List.mem_append.mp hmem with hcoll | htimer
    · rcases List.mem_flatMap.mp hcoll with ⟨q, hq, hqc⟩
      exact hself q hq hqc
    · rcases List.mem_map.mp htimer with ⟨q, hq, hqid⟩
      rcases List.mem_filter.mp hq with ⟨hqb, hqfin⟩
      have hqeq : q = b := hids q hqb hqid
      rw [hqeq] at hqfin
      rw [hnf] at hqfin
      simp at hqfin

theorem bullet_collision_despawns_partner_witness :
    bulletCE ∈ [bulletCE]
    ∧ (2 : ℕ) ∈ bulletCE.collisions
    ∧ (∀ q ∈ [bulletCE], bulletCE.id ∉ q.collisions)
    ∧ (∀ q ∈ [bulletCE], q.id = bulletCE.id → q = bulletCE)
    ∧ (bulletCE.timer.tick 0.1).finished = false
    ∧ ((2 : ℕ) ∈ bullet_tick_despawns [bulletCE] 0.1
      ∧ bulletCE.id ∉ bullet_tick_despawns [bulletCE] 0.1
      ∧ (((bulletCE.timer.tick 0.1).finished = true) ↔
          bulletCE.timer.duration ≤ bulletCE.timer.elapsed + 0.1)) :=
  ⟨List.mem_singleton.mpr rfl, by simp [bulletCE], by simp [bulletCE],
    by simp, by norm_num [bulletCE, Timer.tick],
    bullet_collision_despawns_partner [bulletCE] bulletCE
      (List.mem_singleton.mpr rfl) 2 (by simp [bulletCE]) 0.1
      (by simp [bulletCE]) (by simp) (by norm_num [bulletCE, Timer.tick])⟩

/-! ## Weapon pickup lifetime (`spawn_warned`, `tick_timers`) -/

/-- Weapon asset variants (`enum Weapons`). -/
inductive Weapons
  | Base
  | Rocket
  | Sniper
  | Shotgun
  | Rock
  | Airplane
deriving DecidableEq

/-- A `SpawnWeapon` warning entity: countdown, asset and recorded spawn
position. -/
structure SpawnWeaponEnt where
  timer : Timer
  asset : Weapons
  position : ℚ × ℚ
deriving DecidableEq

/-- The materialized weapon pickup (the root entity spawned by
`spawn_warned`): it carries a `Bullet { timer: 5.0s }` lifetime
component, and its child sensor carries the `Weapon` tag (always
`Weapons::Base`). -/
structure PickupEnt where
  position : ℚ × ℚ
  asset : Weapons
  bullet : Timer
deriving DecidableEq

/-- `spawn_warned` acting on one warning entity for one tick: when the
warning countdown finishes, the warning despawns and the real pickup is
created at the recorded position with a fresh 5-second `Bullet` timer. -/
def spawn_warned_step (w : SpawnWeaponEnt) (dt : ℚ) : Option PickupEnt :=
  let t := w.timer.tick dt
  if t.finished then
    some ⟨w.position, Weapons.Base, Timer.fromSeconds 5 false⟩
  else
    none

/-- The `tick_timers` bullet-despawn loop applied over successive ticks to
an entity holding a lifetime timer: the entity stays alive until the tick
on which the timer finishes. -/
def aliveAfterTicks : Timer → List ℚ → Bool
  | _, [] => true
  | t, dt :: rest =>
      let t' := t.tick dt
      if t'.finished then false else aliveAfterTicks t' rest

theorem aliveAfterTicks_nonrep (dur : ℚ) (dts : List ℚ) :
    ∀ (e : ℚ) (fin : Bool), (∀ d ∈ dts, 0 ≤ d) → e < dur →
      (aliveAfterTicks ⟨dur, e, false, fin⟩ dts = true ↔ e + dts.sum < dur) := by
  induction dts with
  | nil =>
      intro e fin _ he
      simpa [aliveAfterTicks] using he
  | cons d rest ih =>
      intro e fin h he
      have hrest : ∀ x ∈ rest, 0 ≤ x := fun x hx => h x (List.mem_cons_of_mem _ hx)
      have hsum : 0 ≤ rest.sum := List.sum_nonneg hrest
      by_cases hfin : dur ≤ e + d
      · have hdead : aliveAfterTicks ⟨dur, e, false, fin⟩ (d :: rest) = false := by
          simp [aliveAfterTicks, Timer.tick, hfin]
        rw [hdead, List.sum_cons]
        constructor
        · intro hfalse
          exact absurd hfalse (by simp)
        · intro habs
          linarith
      · have h' : e + d < dur := not_le.mp hfin
        have hstep : aliveAfterTicks ⟨dur, e, false, fin⟩ (d :: rest)
            = aliveAfterTicks ⟨dur, e + d, false, false⟩ rest := by
          simp [aliveAfterTicks, Timer.tick, hfin]
        rw [hstep, ih (e + d) false hrest h', List.sum_cons]
        constructor <;> intro <;> linarith

/-- C9: a warning that materializes produces a pickup carrying a fresh
5-second `Bullet` lifetime timer, and over any sequence of nonnegative
ticks the pickup is still alive exactly when less than 5 seconds have
elapsed since it materialized — so an untouched pickup is despawned once
5 seconds have passed, and never before. -/
theorem weapon_pickup_lifetime (w : SpawnWeaponEnt) (dt0 : ℚ) (p : PickupEnt)
    (hs : spawn_warned_step w dt0 = some p)
    (dts : List ℚ) (hnn : ∀ d ∈ dts, 0 ≤ d) :
    p.bullet = Timer.fromSeconds 5 false
    ∧ (aliveAfterTicks p.bullet dts = true ↔ dts.sum < 5) := by
  have hb : p.bullet = Timer.fromSeconds 5 false := by
    unfold spawn_warned_step at hs
    dsimp only at hs
    split at hs
    · cases hs
      rfl
    · cases hs
  refine ⟨hb, ?_⟩
  rw [hb]
  have := aliveAfterTicks_nonrep 5 dts 0 false hnn (by norm_num)
  simpa [Timer.fromSeconds] using this

theorem weapon_pickup_lifetime_witness :
    spawn_warned_step ⟨⟨1, 0.95, false, false⟩, Weapons.Base, (0, 120)⟩ 0.1
        = some ⟨(0, 120), Weapons.Base, Timer.fromSeconds 5 false⟩
    ∧ (∀ d ∈ [(3 : ℚ), 2.5], 0 ≤ d)
    ∧ ((⟨(0, 120), Weapons.Base, Timer.fromSeconds 5 false⟩ : PickupEnt).bullet
          = Timer.fromSeconds 5 false
      ∧ (aliveAfterTicks
            (⟨(0, 120), Weapons.Base, Timer.fromSeconds 5 false⟩ : PickupEnt).bullet
            [(3 : ℚ), 2.5] = true
          ↔ ([(3 : ℚ), 2.5]).sum < 5)) :=
  ⟨by norm_num [spawn_warned_step, Timer.tick], by norm_num,
    weapon_pickup_lifetime ⟨⟨1, 0.95, false, false⟩, Weapons.Base, (0, 120)⟩ 0.1
      ⟨(0, 120), Weapons.Base, Timer.fromSeconds 5 false⟩
      (by norm_num [spawn_warned_step, Timer.tick]) [(3 : ℚ), 2.5] (by norm_num)⟩

/-! ## Enemy wave spawning (`tick_timers`) -/

/-- The behavior-variant lookup applied to `decider % 12` in
`tick_timers`. -/
def decodeBehavior (n : ℤ) : Behavior :=
  match n with
  | 0 => Behavior.Walker
  | 1 => Behavior.Jumper
  | 2 => Behavior.Shooter
  | 3 => Behavior.BurstShooter
  | 4 => Behavior.Jumper
  | 5 => Behavior.Jumper
  | 6 => Behavior.Shooter
  | 7 => Behavior.Jumper
  | 8 => Behavior.BurstShooter
  | 9 => Behavior.Walker
  | 10 => Behavior.Shooter
  | 11 => Behavior.Shooter
  | _ => Behavior.Jumper

/-- Loop bound of the enemy-wave spawn loop:
`for _i in 0..if difficulty < 8 { difficulty } else { 6 }`. -/
def waveCount (difficulty : ℤ) : ℕ :=
  (if difficulty < 8 then difficulty else 6).toNat

/-- The enemy-warning spawns of one `tick_timers` run: when the
`EnemyTimer` fired and at most 100 enemies are alive, one warning per
loop iteration, its variant decided by `uniform_random(0, difficulty) % 12`
(the draws are passed in as an oracle). -/
def tick_timers_wave (difficulty : ℤ) (enemyCount : ℕ) (fired : Bool)
    (draws : ℕ → ℤ) : List Behavior :=
  if fired = true ∧ enemyCount ≤ 100 then
    (List.range (waveCount difficulty)).map (fun i => decodeBehavior (draws i % 12))
  else []

/-- Constant draw oracle used for the concrete wave instances. -/
def zeroDraws : ℕ → ℤ := fun _ => 0

theorem wave_count_counterexample :
    (tick_timers_wave 7 0 true zeroDraws).length = 7
    ∧ (min (7 : ℤ) 6).toNat = 6 := by
  constructor
  · simp [tick_timers_wave, waveCount]
  · decide

/-- C4 (amended): on an `EnemyTimer` firing with at most 100 live
enemies, the scheduler spawns exactly `N` enemy warnings with
`N = difficulty` below difficulty 8 and `N = 6` from difficulty 8 on
(so `N = min(difficulty, 6)` holds below 7 and from 8 on, but at
difficulty 7 exactly 7 warnings spawn); in particular difficulty 1 yields
1 warning and difficulty 30 yields 6; no warning spawns when more than
100 enemies are alive or when the timer did not fire. -/
theorem enemy_wave_count (d : ℤ) (c : ℕ) (draws : ℕ → ℤ) (hc : c ≤ 100) :
    (tick_timers_wave d c true draws).length = (if d < 8 then d else 6).toNat
    ∧ (tick_timers_wave 1 c true draws).length = 1
    ∧ (tick_timers_wave 30 c true draws).length = 6
    ∧ (∀ (c' : ℕ), 100 < c' → tick_timers_wave d c' true draws = [])
    ∧ tick_timers_wave d c false draws = [] := by
  refine ⟨?_, ?_, ?_, ?_, ?_⟩
  · simp [tick_timers_wave, waveCount, hc]
  · simp [tick_timers_wave, waveCount, hc]
  · simp [tick_timers_wave, waveCount, hc]
  · intro c' hc'
    simp [tick_timers_wave, Nat.not_le.mpr hc']
  · simp [tick_timers_wave]

theorem enemy_wave_count_witness :
    (0 : ℕ) ≤ 100
    ∧ ((tick_timers_wave 30 0 true zeroDraws).length = (if (30 : ℤ) < 8 then (30 : ℤ) else 6).toNat
      ∧ (tick_timers_wave 1 0 true zeroDraws).length = 1
      ∧ (tick_timers_wave 30 0 true zeroDraws).length = 6
      ∧ (∀ (c' : ℕ), 100 < c' → tick_timers_wave 30 c' true zeroDraws = [])
      ∧ tick_timers_wave 30 0 false zeroDraws = []) :=
  ⟨by norm_num, enemy_wave_count 30 0 zeroDraws (by norm_num)⟩

/-! ## Weapon pickup on player contact (`grab_weapon`) -/

/-- A free-standing weapon pickup sensor with its per-tick collision
partner list; its collision mask admits only the `Player` layer. -/
structure Pickup where
  id : ℕ
  collisions : List ℕ
deriving DecidableEq

/-- State read and written by `grab_weapon`: the `Score` and
`DifficultyTimer` resources, the player's recorded location, the live
`HeldItem` entities (by position) and the pickup sensors. -/
structure GrabState where
  score : ℤ
  difficulty : ℤ
  playerLoc : ℚ × ℚ
  held : List (ℚ × ℚ)
  pickups : List Pickup
deriving DecidableEq

/-- Total number of `(pickup, collision partner)` events processed by the
nested `for_each` loops of `grab_weapon` in one tick. -/
def collisionCount (ps : List Pickup) : ℕ :=
  (ps.map (fun p => p.collisions.length)).sum

/-- The `Score` updates of `grab_weapon`: `score += 2 * difficulty` once
per collision event (direct `ResMut` mutation, applied immediately). -/
def grabScore (d : ℤ) (ps : List Pickup) (sc : ℤ) : ℤ :=
  ps.foldl (fun a p => p.collisions.foldl (fun a2 _ => a2 + 2 * d) a) sc

/-- The `HeldItem` spawns of `grab_weapon`: one new held item at the
player's location per collision event (deferred commands). -/
def grabHeldSpawns (loc : ℚ × ℚ) (ps : List Pickup) : List (ℚ × ℚ) :=
  ps.foldl (fun l p => p.collisions.foldl (fun l2 _ => l2 ++ [loc]) l) []

/-- `grab_weapon` for one tick.  Commands are deferred: each collision
event increments the score, requests a despawn of the colliding pickup
and of every previously held item (the query snapshot), and requests one
`HeldItem` spawn at the player's location; at the end of the tick the
colliding pickups are gone and the spawned held items are alive. -/
def grab_weapon_step (s : GrabState) : GrabState :=
  { s with
    score := grabScore s.difficulty s.pickups s.score
    pickups := s.pickups.filter (fun p => p.collisions.isEmpty)
    held := (if collisionCount s.pickups = 0 then s.held else [])
              ++ grabHeldSpawns s.playerLoc s.pickups }

theorem foldl_add_const (d : ℤ) (cs : List ℕ) :
    ∀ a : ℤ, cs.foldl (fun a2 _ => a2 + 2 * d) a = a + 2 * d * cs.length := by
  induction cs with
  | nil => intro a; simp
  | cons c cs ih =>
      intro a
      rw [List.foldl_cons, ih]
      simp only [List.length_cons]
      push_cast
      ring

theorem grabScore_eq (d : ℤ) (ps : List Pickup) :
    ∀ sc : ℤ, grabScore d ps sc = sc + 2 * d * collisionCount ps := by
  induction ps with
  | nil => intro sc; simp [grabScore, collisionCount]
  | cons p ps ih =>
      intro sc
      have hstep : grabScore d (p :: ps) sc
          = grabScore d ps (sc + 2 * d * p.collisions.length) := by
        simp [grabScore, foldl_add_const]
      have hc : collisionCount (p :: ps)
          = p.collisions.length + collisionCount ps := by
        simp [collisionCount]
      rw [hstep, ih, hc]
      push_cast
      ring

theorem foldl_append_const (loc : ℚ × ℚ) (cs : List ℕ) :
    ∀ l : List (ℚ × ℚ), cs.foldl (fun l2 _ => l2 ++ [loc]) l
      = l ++ List.replicate cs.length loc := by
  induction cs with
  | nil => intro l; simp
  | cons c cs ih =>
      intro l
      rw [List.foldl_cons, ih]
      simp [List.replicate_succ]

theorem grabHeldSpawns_eq (loc : ℚ × ℚ) (ps : List Pickup) :
    grabHeldSpawns loc ps = List.replicate (collisionCount ps) loc := by
  have key : ∀ l : List (ℚ × ℚ),
      ps.foldl (fun l2 p => p.collisions.foldl (fun l3 _ => l3 ++ [loc]) l2) l
        = l ++ List.replicate (collisionCount ps) loc := by
    induction ps with
    | nil => intro l; simp [collisionCount]
    | cons p ps ih =>
        intro l
        rw [List.foldl_cons, foldl_append_const, ih]
        have hc : collisionCount (p :: ps)
            = p.collisions.length + collisionCount ps := by
          simp [collisionCount]
        rw [hc, List.replicate_add, List.append_assoc]
  simpa [grabHeldSpawns] using key []

theorem collisionCount_eq_filter (player : ℕ) (ps : List Pickup)
    (hmask : ∀ q ∈ ps, q.collisions = [] ∨ q.collisions = [player]) :
    collisionCount ps = (ps.filter (fun q => !q.collisions.isEmpty)).length := by
  induction ps with
  | nil => simp [collisionCount]
  | cons p ps ih =>
      have hp := hmask p (List.mem_cons_self p ps)
      have hrest : ∀ q ∈ ps, q.collisions = [] ∨ q.collisions = [player] :=
        fun q hq => hmask q (List.mem_cons_of_mem _ hq)
      rcases hp with hp | hp
      · simp [collisionCount, List.filter_cons, hp] at ih ⊢
        exact ih hrest
      · simp [collisionCount, List.filter_cons, hp] at ih ⊢
        rw [Nat.add_comm]
        simp [ih hrest]

/-- C6: when a weapon pickup collides with the player (pickup sensors can
only collide with the player layer), the tick adds `2 * difficulty` to
the score exactly once per colliding pickup, a `HeldItem` appears at the
player's recorded location, the colliding pickup despawns, and no pickup
surviving the tick has a pending collision — so the same pickup can never
be counted twice. -/
theorem grab_weapon_pickup (s : GrabState) (player : ℕ)
    (hmask : ∀ q ∈ s.pickups, q.collisions = [] ∨ q.collisions = [player])
    (p : Pickup) (hp : p ∈ s.pickups) (hcol : p.collisions = [player]) :
    (grab_weapon_step s).score
        = s.score + 2 * s.difficulty
            * ((s.pickups.filter (fun q => !q.collisions.isEmpty)).length : ℤ)
    ∧ 1 ≤ (s.pickups.filter (fun q => !q.collisions.isEmpty)).length
    ∧ s.playerLoc ∈ (grab_weapon_step s).held
    ∧ p ∉ (grab_weapon_step s).pickups
    ∧ (∀ q ∈ (grab_weapon_step s).pickups, q.collisions = []) := by
  have hcount : collisionCount s.pickups
      = (s.pickups.filter (fun q => !q.collisions.isEmpty)).length :=
    collisionCount_eq_filter player s.pickups hmask
  have hpfilter : p ∈ s.pickups.filter (fun q => !q.collisions.isEmpty) :=
    List.mem_filter.mpr ⟨hp, by simp [hcol]⟩
  have hpos : 1 ≤ (s.pickups.filter (fun q => !q.collisions.isEmpty)).length :=
    List.length_pos_of_mem hpfilter
  refine ⟨?_, hpos, ?_, ?_, ?_⟩
  · simp [grab_weapon_step, grabScore_eq, hcount]
  · have hne : collisionCount s.pickups ≠ 0 := by omega
    simp only [grab_weapon_step]
    refine List.mem_append_right _ ?_
    rw [grabHeldSpawns_eq]
    exact List.mem_replicate.mpr ⟨hne, rfl⟩
  · intro hmem
    simp only [grab_weapon_step] at hmem
    have := (List.mem_filter.mp hmem).2
    simp [hcol] at this
  · intro q hq
    simp only [grab_weapon_step] at hq
    have := (List.mem_filter.mp hq).2
    simpa [List.isEmpty_iff] using this

/-- Concrete pickup state: score 0, difficulty 3, a single pickup
(entity 1) overlapping the player (entity 7). -/
def grabW : GrabState := ⟨0, 3, (0, 0), [], [⟨1, [7]⟩]⟩

theorem grab_weapon_pickup_witness :
    (∀ q ∈ grabW.pickups, q.collisions = [] ∨ q.collisions = [7])
    ∧ (⟨1, [7]⟩ : Pickup) ∈ grabW.pickups
    ∧ (⟨1, [7]⟩ : Pickup).collisions = [7]
    ∧ ((grab_weapon_step grabW).score
          = grabW.score + 2 * grabW.difficulty
              * ((grabW.pickups.filter (fun q => !q.collisions.isEmpty)).length : ℤ)
      ∧ 1 ≤ (grabW.pickups.filter (fun q => !q.collisions.isEmpty)).length
      ∧ grabW.playerLoc ∈ (grab_weapon_step grabW).held
      ∧ (⟨1, [7]⟩ : Pickup) ∉ (grab_weapon_step grabW).pickups
      ∧ (∀ q ∈ (grab_weapon_step grabW).pickups, q.collisions = [])) :=
  ⟨by simp [grabW], by simp [grabW], rfl,
    grab_weapon_pickup grabW 7 (by simp [grabW]) ⟨1, [7]⟩ (by simp [grabW]) rfl⟩

/-! ## Shooter projectiles (`handle_shooter`) -/

/-- A 2D point or vector over the reals (positions and velocities in
`handle_shooter`). -/
structure Vec2R where
  x : ℝ
  y : ℝ

/-- Four-quadrant arctangent, the semantics of `libm::atan2f(y, x)` over
the reals. -/
noncomputable def atan2 (y x : ℝ) : ℝ :=
  if 0 < x then Real.arctan (y / x)
  else if x < 0 then
    (if 0 ≤ y then Real.arctan (y / x) + Real.pi
     else Real.arctan (y / x) - Real.pi)
  else
    (if 0 < y then Real.pi / 2 else if y < 0 then -(Real.pi / 2) else 0)

/-- The angle computed in `handle_shooter`:
`dx = self.x - player.x`, `dy = self.y - player.y`, `atan2f(dy, dx)`. -/
noncomputable def shooterAngle (trans player : Vec2R) : ℝ :=
  atan2 (trans.y - player.y) (trans.x - player.x)

/-- The spawned enemy bullet's velocity in `handle_shooter`:
`(-sin(angle) * 50, cos(angle) * 50)`. -/
noncomputable def shooterBulletVel (trans player : Vec2R) : Vec2R :=
  ⟨-(Real.sin (shooterAngle trans player)) * 50,
    Real.cos (shooterAngle trans player) * 50⟩

/-- Modelled from the spec: the aim angle the specification ascribes to
the shot, `atan2(player.y - self.y, player.x - self.x)` (pointing from
the shooter toward the player), for comparison with `shooterAngle`. -/
noncomputable def specAimAngle (trans player : Vec2R) : ℝ :=
  atan2 (player.y - trans.y) (player.x - trans.x)

/-- A projectile spawned by `handle_shooter`: spawn position and linear
velocity. -/
structure ShotProjectile where
  pos : Vec2R
  vel : Vec2R

/-- `handle_shooter` acting on one enemy's `Shooter` component for one
tick: tick the timer; when it finishes, spawn exactly one projectile at
the shooter's position with the `(-sin, cos) * 50` velocity and remove
the `Shooter` component (the Boolean records the removal). -/
noncomputable def handle_shooter_step (dt : ℚ) (trans player : Vec2R)
    (sh : Timer) : Timer × Bool × List ShotProjectile :=
  let t := sh.tick dt
  if t.finished then
    (t, true, [⟨trans, shooterBulletVel trans player⟩])
  else
    (t, false, [])

theorem atan2_zero_one : atan2 0 1 = 0 := by
  norm_num [atan2, Real.arctan_zero]

theorem atan2_zero_neg_one : atan2 0 (-1) = Real.pi := by
  norm_num [atan2, Real.arctan_zero]

theorem shooter_aim_counterexample :
    shooterAngle ⟨1, 0⟩ ⟨0, 0⟩ ≠ specAimAngle ⟨1, 0⟩ ⟨0, 0⟩
    ∧ (shooterBulletVel ⟨1, 0⟩ ⟨0, 0⟩).x * Real.sin (specAimAngle ⟨1, 0⟩ ⟨0, 0⟩)
        - (shooterBulletVel ⟨1, 0⟩ ⟨0, 0⟩).y * Real.cos (specAimAngle ⟨1, 0⟩ ⟨0, 0⟩)
      ≠ 0 := by
  have hcode : shooterAngle ⟨1, 0⟩ ⟨0, 0⟩ = 0 := by
    have h : shooterAngle ⟨1, 0⟩ ⟨0, 0⟩ = atan2 0 1 := by
      norm_num [shooterAngle]
    rw [h, atan2_zero_one]
  have hspec : specAimAngle ⟨1, 0⟩ ⟨0, 0⟩ = Real.pi := by
    have h : specAimAngle ⟨1, 0⟩ ⟨0, 0⟩ = atan2 0 (-1) := by
      norm_num [specAimAngle]
    rw [h, atan2_zero_neg_one]
  constructor
  · rw [hcode, hspec]
    exact fun habs => Real.pi_ne_zero habs.symm
  · have hvx : (shooterBulletVel ⟨1, 0⟩ ⟨0, 0⟩).x = 0 := by
      simp [shooterBulletVel, hcode]
    have hvy : (shooterBulletVel ⟨1, 0⟩ ⟨0, 0⟩).y = 50 := by
      simp [shooterBulletVel, hcode]
    rw [hvx, hvy, hspec, Real.sin_pi, Real.cos_pi]
    norm_num

/-- C3 (amended): when an enemy's `Shooter` timer finishes, exactly one
projectile is spawned at the shooter's position, but its velocity is
`50 * (-sin θ, cos θ)` with `θ = atan2(self.y - player.y,
self.x - player.x)` — the angle from the player to the shooter, with a
velocity perpendicular to that direction — and the `Shooter` component is
removed. -/
theorem handle_shooter_fire (sh : Timer) (dt : ℚ) (trans player : Vec2R)
    (hfin : (sh.tick dt).finished = true) :
    handle_shooter_step dt trans player sh
      = (sh.tick dt, true,
          [⟨trans,
            ⟨-(Real.sin (atan2 (trans.y - player.y) (trans.x - player.x))) * 50,
             Real.cos (atan2 (trans.y - player.y) (trans.x - player.x)) * 50⟩⟩])
    ∧ (handle_shooter_step dt trans player sh).2.2.length = 1 := by
  constructor
  · simp [handle_shooter_step, hfin, shooterBulletVel, shooterAngle]
  · simp [handle_shooter_step, hfin]

theorem handle_shooter_fire_witness :
    (((⟨1, 0.95, false, false⟩ : Timer).tick 0.1).finished = true)
    ∧ (handle_shooter_step 0.1 ⟨1, 0⟩ ⟨0, 0⟩ ⟨1, 0.95, false, false⟩
        = ((⟨1, 0.95, false, false⟩ : Timer).tick 0.1, true,
            [⟨⟨1, 0⟩,
              ⟨-(Real.sin (atan2 ((0 : ℝ) - 0) ((1 : ℝ) - 0)))
                  * 50,
               Real.cos (atan2 ((0 : ℝ) - 0) ((1 : ℝ) - 0)) * 50⟩⟩])
      ∧ (handle_shooter_step 0.1 ⟨1, 0⟩ ⟨0, 0⟩ ⟨1, 0.95, false, false⟩).2.2.length
          = 1) :=
  ⟨by norm_num [Timer.tick],
    handle_shooter_fire ⟨1, 0.95, false, false⟩ 0.1 ⟨1, 0⟩ ⟨0, 0⟩
      (by norm_num [Timer.tick])⟩

/-! ## Player movement and dash controller (`move_player`) -/

/-- Horizontal directions (`enum Directions`). -/
inductive Directions
  | Left
  | Right
deriving DecidableEq

/-- Digital key state for one movement key on one tick: freshly pressed
(`just_pressed`), held (`pressed` but not fresh), or up. -/
inductive KeyState
  | justPressed
  | held
  | up
deriving DecidableEq

/-- Player-controller state touched by `move_player`: transform and
velocity, the player's `jump_height`, the process-wide `DashTimer`
resource (timer and last-dash direction) and the player's optional
`Dashing` component. -/
structure MoveState where
  posX : ℚ
  posY : ℚ
  velX : ℚ
  velY : ℚ
  jump_height : ℚ
  dashTimer : Timer
  dashDir : Directions
  dashing : Option Directions
deriving DecidableEq

/-- The `KeyCode::D` block of `move_player`: on a fresh press, either
re-arm the dash timer toward `Right` and nudge (when the previous dash
was not an un-expired `Right`), or commit a dash (mark the dash timer
used, attach `Dashing{Right}`); on a held key just nudge.  A nudge moves
one unit and zeroes horizontal velocity only when `velocity.x >= -50`. -/
def processD (k : KeyState) (s : MoveState) : MoveState :=
  match k with
  | KeyState.justPressed =>
      if s.dashTimer.finished = true ∨ s.dashDir ≠ Directions.Right then
        let s1 : MoveState :=
          { s with dashTimer := Timer.fromSeconds 0.2 false,
                   dashDir := Directions.Right }
        if (-50 : ℚ) ≤ s1.velX then
          { s1 with posX := s1.posX + 1, velX := 0 }
        else s1
      else
        { s with dashTimer := s.dashTimer.setElapsed 50,
                 dashing := some Directions.Right }
  | KeyState.held =>
      if (-50 : ℚ) ≤ s.velX then { s with posX := s.posX + 1, velX := 0 } else s
  | KeyState.up => s

/-- The `KeyCode::A` block of `move_player`, mirror of `processD`: nudge
by `-1` when `velocity.x <= 50`, dash direction `Left`
(`Dashing::default()`). -/
def processA (k : KeyState) (s : MoveState) : MoveState :=
  match k with
  | KeyState.justPressed =>
      if s.dashTimer.finished = true ∨ s.dashDir ≠ Directions.Left then
        let s1 : MoveState :=
          { s with dashTimer := Timer.fromSeconds 0.2 false,
                   dashDir := Directions.Left }
        if s1.velX ≤ (50 : ℚ) then
          { s1 with posX := s1.posX - 1, velX := 0 }
        else s1
      else
        { s with dashTimer := s.dashTimer.setElapsed 50,
                 dashing := some Directions.Left }
  | KeyState.held =>
      if s.velX ≤ (50 : ℚ) then { s with posX := s.posX - 1, velX := 0 } else s
  | KeyState.up => s

/-- One `move_player` tick.  A player without a `Dashing` component runs
the D block, then the A block, then the jump check; a player with a
`Dashing` component is excluded from that query and instead has its
velocity forced to zero and its position translated kinematically at 250
units per second in the dash direction. -/
def move_player (dKey aKey : KeyState) (space : Bool) (dt : ℚ)
    (s : MoveState) : MoveState :=
  match s.dashing with
  | some dir =>
      let newX :=
        match dir with
        | Directions.Left => s.posX - 250 * dt
        | Directions.Right => s.posX + 250 * dt
      { s with velX := 0, velY := 0, posX := newX }
  | none =>
      let s1 := processD dKey s
      let s2 := processA aKey s1
      if space = true ∧ s2.posY ≤ -85 then { s2 with velY := s2.jump_height }
      else s2

theorem move_player_none (dk ak : KeyState) (sp : Bool) (dt : ℚ)
    (s : MoveState) (h0 : s.dashing = none) :
    move_player dk ak sp dt s =
      (if sp = true ∧ (processA ak (processD dk s)).posY ≤ -85
       then { processA ak (processD dk s) with
                velY := (processA ak (processD dk s)).jump_height }
       else processA ak (processD dk s)) := by
  obtain ⟨px, py, vx, vy, jh, dtm, dd, dsh⟩ := s
  simp only [MoveState.dashing] at h0
  subst h0
  rfl

theorem processD_dashing (k : KeyState) (s : MoveState) :
    (processD k s).dashing =
      (if k = KeyState.justPressed ∧ s.dashTimer.finished = false
          ∧ s.dashDir = Directions.Right
       then some Directions.Right else s.dashing) := by
  cases k with
  | up => simp [processD]
  | held =>
      have h2 : ¬ (KeyState.held = KeyState.justPressed
          ∧ s.dashTimer.finished = false ∧ s.dashDir = Directions.Right) := by
        rintro ⟨h, -⟩
        cases h
      rw [if_neg h2]
      simp only [processD]
      split_ifs <;> rfl
  | justPressed =>
      by_cases h1 : s.dashTimer.finished = true ∨ s.dashDir ≠ Directions.Right
      · have h2 : ¬ (KeyState.justPressed = KeyState.justPressed
            ∧ s.dashTimer.finished = false ∧ s.dashDir = Directions.Right) := by
          rintro ⟨-, hf, hd⟩
          rcases h1 with h1 | h1
          · rw [h1] at hf
            cases hf
          · exact h1 hd
        rw [if_neg h2]
        simp only [processD]
        rw [if_pos h1]
        split_ifs <;> rfl
      · push_neg at h1
        have h2 : KeyState.justPressed = KeyState.justPressed
            ∧ s.dashTimer.finished = false ∧ s.dashDir = Directions.Right :=
          ⟨rfl, (Bool.not_eq_true _) ▸ h1.1, h1.2⟩
        rw [if_pos h2]
        simp only [processD]
        rw [if_neg (by push_neg; exact h1)]

theorem processA_dashing (k : KeyState) (s : MoveState) :
    (processA k s).dashing =
      (if k = KeyState.justPressed ∧ s.dashTimer.finished = false
          ∧ s.dashDir = Directions.Left
       then some Directions.Left else s.dashing) := by
  cases k with
  | up => simp [processA]
  | held =>
      have h2 : ¬ (KeyState.held = KeyState.justPressed
          ∧ s.dashTimer.finished = false ∧ s.dashDir = Directions.Left) := by
        rintro ⟨h, -⟩
        cases h
      rw [if_neg h2]
      simp only [processA]
      split_ifs <;> rfl
  | justPressed =>
      by_cases h1 : s.dashTimer.finished = true ∨ s.dashDir ≠ Directions.Left
      · have h2 : ¬ (KeyState.justPressed = KeyState.justPressed
            ∧ s.dashTimer.finished = false ∧ s.dashDir = Directions.Left) := by
          rintro ⟨-, hf, hd⟩
          rcases h1 with h1 | h1
          · rw [h1] at hf
            cases hf
          · exact h1 hd
        rw [if_neg h2]
        simp only [processA]
        rw [if_pos h1]
        split_ifs <;> rfl
      · push_neg at h1
        have h2 : KeyState.justPressed = KeyState.justPressed
            ∧ s.dashTimer.finished = false ∧ s.dashDir = Directions.Left :=
          ⟨rfl, (Bool.not_eq_true _) ▸ h1.1, h1.2⟩
        rw [if_pos h2]
        simp only [processA]
        rw [if_neg (by push_neg; exact h1)]

theorem processD_preserves (k : KeyState) (s : MoveState)
    (h : ¬ (k = KeyState.justPressed ∧ s.dashTimer.finished = false
        ∧ s.dashDir = Directions.Right)) :
    (processD k s).dashTimer.finished = s.dashTimer.finished
    ∨ (processD k s).dashDir = Directions.Right := by
  cases k with
  | up => left; rfl
  | held =>
      left
      simp only [processD]
      split_ifs <;> rfl
  | justPressed =>
      by_cases hc : s.dashTimer.finished = true ∨ s.dashDir ≠ Directions.Right
      · right
        simp only [processD]
        rw [if_pos hc]
        split_ifs <;> rfl
      · left
        simp only [processD]
        rw [if_neg hc]
        rfl

theorem move_player_dashing (dk ak : KeyState) (sp : Bool) (dt : ℚ)
    (s : MoveState) (h0 : s.dashing = none) :
    (move_player dk ak sp dt s).dashing
      = (processA ak (processD dk s)).dashing := by
  rw [move_player_none dk ak sp dt s h0]
  split_ifs <;> rfl

theorem dash_attach_cases (t : MoveState) (dk ak : KeyState) (sp : Bool)
    (dt2 : ℚ) (h0 : t.dashing = none)
    (hres : (move_player dk ak sp dt2 t).dashing ≠ none) :
    (dk = KeyState.justPressed ∧ t.dashTimer.finished = false
      ∧ t.dashDir = Directions.Right)
    ∨ (ak = KeyState.justPressed ∧ t.dashTimer.finished = false
      ∧ t.dashDir = Directions.Left) := by
  rw [move_player_dashing dk ak sp dt2 t h0, processA_dashing] at hres
  by_cases hD : dk = KeyState.justPressed ∧ t.dashTimer.finished = false
      ∧ t.dashDir = Directions.Right
  · exact Or.inl hD
  · right
    rw [processD_dashing, if_neg hD, h0] at hres
    by_cases hA : ak = KeyState.justPressed
        ∧ (processD dk t).dashTimer.finished = false
        ∧ (processD dk t).dashDir = Directions.Left
    · obtain ⟨hak, hfinD, hdirD⟩ := hA
      rcases processD_preserves dk t hD with hpres | hpres
      · -- the D block left the dash-timer finished flag unchanged: only
        -- the up, held and just-pressed-nudge branches are possible
        cases dk with
        | up => exact ⟨hak, hfinD, hdirD⟩
        | held =>
            have hdir : (processD KeyState.held t).dashDir = t.dashDir := by
              simp only [processD]
              split_ifs <;> rfl
            rw [hdir] at hdirD
            rw [hpres] at hfinD
            exact ⟨hak, hfinD, hdirD⟩
        | justPressed =>
            by_cases hc : t.dashTimer.finished = true
                ∨ t.dashDir ≠ Directions.Right
            · have hdir : (processD KeyState.justPressed t).dashDir
                  = Directions.Right := by
                simp only [processD]
                rw [if_pos hc]
                split_ifs <;> rfl
              rw [hdir] at hdirD
              exact absurd hdirD (by simp)
            · push_neg at hc
              exact absurd ⟨rfl, (Bool.not_eq_true _) ▸ hc.1, hc.2⟩ hD
      · rw [hpres] at hdirD
        exact absurd hdirD (by simp)
    · rw [if_neg hA] at hres
      exact absurd rfl hres

/-- C7: a single isolated press of a movement direction (the dash timer
expired, or the remembered direction differs from the pressed one) by a
player at rest moves the player exactly one unit in that direction
(`+1` for a right press, `-1` for a left press), zeroes horizontal
velocity, and attaches no `Dashing` component; and a `Dashing` component
can only ever appear on a fresh press whose direction matches the
un-expired remembered dash direction — a second same-direction press
inside the rearm window. -/
theorem single_press_nudge (s : MoveState) (dt : ℚ)
    (h0 : s.dashing = none)
    (hrest : s.velX = 0) :
    ((s.dashTimer.finished = true ∨ s.dashDir ≠ Directions.Right) →
      (move_player KeyState.justPressed KeyState.up false dt s).posX = s.posX + 1
      ∧ (move_player KeyState.justPressed KeyState.up false dt s).velX = 0
      ∧ (move_player KeyState.justPressed KeyState.up false dt s).dashing = none)
    ∧ ((s.dashTimer.finished = true ∨ s.dashDir ≠ Directions.Left) →
      (move_player KeyState.up KeyState.justPressed false dt s).posX = s.posX - 1
      ∧ (move_player KeyState.up KeyState.justPressed false dt s).velX = 0
      ∧ (move_player KeyState.up KeyState.justPressed false dt s).dashing = none)
    ∧ (∀ (t : MoveState) (dk ak : KeyState) (sp : Bool) (dt2 : ℚ),
        t.dashing = none → (move_player dk ak sp dt2 t).dashing ≠ none →
        (dk = KeyState.justPressed ∧ t.dashTimer.finished = false
          ∧ t.dashDir = Directions.Right)
        ∨ (ak = KeyState.justPressed ∧ t.dashTimer.finished = false
          ∧ t.dashDir = Directions.Left)) := by
  have hnudgeR : (-50 : ℚ) ≤ s.velX := by
    rw [hrest]
    norm_num
  have hnudgeL : s.velX ≤ (50 : ℚ) := by
    rw [hrest]
    norm_num
  refine ⟨?_, ?_,
    fun t dk ak sp dt2 h hr => dash_attach_cases t dk ak sp dt2 h hr⟩
  · intro hfresh
    have hmp : move_player KeyState.justPressed KeyState.up false dt s
        = processA KeyState.up (processD KeyState.justPressed s) := by
      rw [move_player_none _ _ _ _ s h0]
      simp
    have hstep : processA KeyState.up (processD KeyState.justPressed s)
        = { s with dashTimer := Timer.fromSeconds 0.2 false,
                   dashDir := Directions.Right, posX := s.posX + 1, velX := 0 } := by
      simp only [processA, processD]
      rw [if_pos hfresh, if_pos hnudgeR]
    refine ⟨?_, ?_, ?_⟩
    · rw [hmp, hstep]
    · rw [hmp, hstep]
    · rw [hmp, hstep]
      exact h0
  · intro hfresh
    have hmp : move_player KeyState.up KeyState.justPressed false dt s
        = processA KeyState.justPressed (processD KeyState.up s) := by
      rw [move_player_none _ _ _ _ s h0]
      simp
    have hstep : processA KeyState.justPressed (processD KeyState.up s)
        = { s with dashTimer := Timer.fromSeconds 0.2 false,
                   dashDir := Directions.Left, posX := s.posX - 1, velX := 0 } := by
      simp only [processA, processD]
      rw [if_pos hfresh, if_pos hnudgeL]
    refine ⟨?_, ?_, ?_⟩
    · rw [hmp, hstep]
    · rw [hmp, hstep]
    · rw [hmp, hstep]
      exact h0

/-- Concrete start-of-game controller state: player at rest at the spawn
point, fresh (default) dash timer remembering `Left`. -/
def moveW : MoveState :=
  ⟨0, -92, 0, 0, 100, ⟨0.0001, 0, false, false⟩, Directions.Left, none⟩

/-- Controller state whose dash timer has expired (the flag was set by a
previous `tick`), so an isolated press in either direction re-arms and
nudges. -/
def moveW2 : MoveState :=
  ⟨0, -92, 0, 0, 100, ⟨0.2, 0.2, false, true⟩, Directions.Left, none⟩

theorem single_press_nudge_witness :
    moveW2.dashing = none
    ∧ moveW2.velX = 0
    ∧ (((moveW2.dashTimer.finished = true ∨ moveW2.dashDir ≠ Directions.Right) →
        (move_player KeyState.justPressed KeyState.up false 0.1 moveW2).posX
            = moveW2.posX + 1
        ∧ (move_player KeyState.justPressed KeyState.up false 0.1 moveW2).velX = 0
        ∧ (move_player KeyState.justPressed KeyState.up false 0.1 moveW2).dashing
            = none)
      ∧ ((moveW2.dashTimer.finished = true ∨ moveW2.dashDir ≠ Directions.Left) →
        (move_player KeyState.up KeyState.justPressed false 0.1 moveW2).posX
            = moveW2.posX - 1
        ∧ (move_player KeyState.up KeyState.justPressed false 0.1 moveW2).velX = 0
        ∧ (move_player KeyState.up KeyState.justPressed false 0.1 moveW2).dashing
            = none)
      ∧ (∀ (t : MoveState) (dk ak : KeyState) (sp : Bool) (dt2 : ℚ),
          t.dashing = none → (move_player dk ak sp dt2 t).dashing ≠ none →
          (dk = KeyState.justPressed ∧ t.dashTimer.finished = false
            ∧ t.dashDir = Directions.Right)
          ∨ (ak = KeyState.justPressed ∧ t.dashTimer.finished = false
            ∧ t.dashDir = Directions.Left))) :=
  ⟨rfl, rfl, single_press_nudge moveW2 0.1 rfl rfl⟩

/-- C10: the one-unit nudge and velocity zeroing are gated on current
velocity: any right press while `velocity.x < -50` (and any left press
while `velocity.x > 50`) changes neither position nor velocity, while a
right press with `velocity.x >= -50` (left press with
`velocity.x <= 50`) nudges by one unit and zeroes `velocity.x`. -/
theorem velocity_gated_nudge (s : MoveState) (dt : ℚ) (h0 : s.dashing = none) :
    (∀ dk : KeyState, s.velX < -50 →
        (move_player dk KeyState.up false dt s).posX = s.posX
        ∧ (move_player dk KeyState.up false dt s).velX = s.velX)
    ∧ (∀ ak : KeyState, 50 < s.velX →
        (move_player KeyState.up ak false dt s).posX = s.posX
        ∧ (move_player KeyState.up ak false dt s).velX = s.velX)
    ∧ ((-50 : ℚ) ≤ s.velX →
        (move_player KeyState.held KeyState.up false dt s).posX = s.posX + 1
        ∧ (move_player KeyState.held KeyState.up false dt s).velX = 0)
    ∧ (s.velX ≤ 50 →
        (move_player KeyState.up KeyState.held false dt s).posX = s.posX - 1
        ∧ (move_player KeyState.up KeyState.held false dt s).velX = 0) := by
  refine ⟨?_, ?_, ?_, ?_⟩
  · intro dk hlt
    have hno : ¬ (-50 : ℚ) ≤ s.velX := not_le.mpr hlt
    have hmp : move_player dk KeyState.up false dt s
        = processD dk s := by
      rw [move_player_none _ _ _ _ s h0]
      simp [processA]
    rw [hmp]
    cases dk with
    | up => exact ⟨rfl, rfl⟩
    | held =>
        simp only [processD]
        rw [if_neg hno]
        exact ⟨rfl, rfl⟩
    | justPressed =>
        by_cases hc : s.dashTimer.finished = true ∨ s.dashDir ≠ Directions.Right
        · simp only [processD]
          rw [if_pos hc, if_neg hno]
          exact ⟨rfl, rfl⟩
        · simp only [processD]
          rw [if_neg hc]
          exact ⟨rfl, rfl⟩
  · intro ak hgt
    have hno : ¬ s.velX ≤ (50 : ℚ) := not_le.mpr hgt
    have hmp : move_player KeyState.up ak false dt s
        = processA ak s := by
      rw [move_player_none _ _ _ _ s h0]
      simp [processD]
    rw [hmp]
    cases ak with
    | up => exact ⟨rfl, rfl⟩
    | held =>
        simp only [processA]
        rw [if_neg hno]
        exact ⟨rfl, rfl⟩
    | justPressed =>
        by_cases hc : s.dashTimer.finished = true ∨ s.dashDir ≠ Directions.Left
        · simp only [processA]
          rw [if_pos hc, if_neg hno]
          exact ⟨rfl, rfl⟩
        · simp only [processA]
          rw [if_neg hc]
          exact ⟨rfl, rfl⟩
  · intro hge
    have hmp : move_player KeyState.held KeyState.up false dt s
        = processD KeyState.held s := by
      rw [move_player_none _ _ _ _ s h0]
      simp [processA]
    rw [hmp]
    simp only [processD]
    rw [if_pos hge]
    exact ⟨rfl, rfl⟩
  · intro hle
    have hmp : move_player KeyState.up KeyState.held false dt s
        = processA KeyState.held s := by
      rw [move_player_none _ _ _ _ s h0]
      simp [processD]
    rw [hmp]
    simp only [processA]
    rw [if_pos hle]
    exact ⟨rfl, rfl⟩

theorem velocity_gated_nudge_witness :
    moveW.dashing = none
    ∧ ((∀ dk : KeyState, moveW.velX < -50 →
          (move_player dk KeyState.up false 0.1 moveW).posX = moveW.posX
          ∧ (move_player dk KeyState.up false 0.1 moveW).velX = moveW.velX)
      ∧ (∀ ak : KeyState, 50 < moveW.velX →
          (move_player KeyState.up ak false 0.1 moveW).posX = moveW.posX
          ∧ (move_player KeyState.up ak false 0.1 moveW).velX = moveW.velX)
      ∧ ((-50 : ℚ) ≤ moveW.velX →
          (move_player KeyState.held KeyState.up false 0.1 moveW).posX
              = moveW.posX + 1
          ∧ (move_player KeyState.held KeyState.up false 0.1 moveW).velX = 0)
      ∧ (moveW.velX ≤ 50 →
          (move_player KeyState.up KeyState.held false 0.1 moveW).posX
              = moveW.posX - 1
          ∧ (move_player KeyState.up KeyState.held false 0.1 moveW).velX = 0)) :=
  ⟨rfl, velocity_gated_nudge moveW 0.1 rfl⟩

end GameJam
